import Mathlib

/-!
Verification development for the `recentmessages` activity of the webex
connector (src/activities/recentmessages.js).  The JavaScript source is
shallowly embedded: timestamps are `Int` milliseconds, JS falsy strings are
the empty string, absent object fields are `Option`, a thrown exception is
`Option.none` threaded through the pipeline, and the external `api`
collaborator is modelled by response values carrying an error flag and a
body, following the spec's description of the API client.
-/

namespace Webex

/-- A room as returned by `GET /rooms` (§3 of the design). -/
structure Room where
  id : String
  title : String
  lastActivity : Int
  deriving DecidableEq

/-- A raw message as returned by `GET /messages?roomId=...`.
`text = ""` models a JS-falsy `text`; `mentionedPeople = none` models an
absent field (an empty array is `some []`, which is truthy in JS). -/
structure Message where
  id : String
  roomId : String
  roomType : String
  text : String
  html : Option String
  created : Int
  personId : String
  mentionedPeople : Option (List String)
  deriving DecidableEq

/-- A display item built by `constructItem` and later mutated in place by the
tagging switch, the enricher and the mention styler.  Optional fields model
JS properties that may be absent. -/
structure Item where
  id : String
  title : String
  description : String
  date : Int
  personId : String
  raw : Message
  gtype : Option String
  roomName : Option String
  roomAvatar : Option String
  initials : Option String
  hiddenCount : Option Int
  displayName : Option String
  deriving DecidableEq

/-- The body of `GET /people/me` and `GET /people/<id>`. -/
structure UserInfo where
  id : String
  displayName : String
  avatar : Option String
  deriving DecidableEq

/-- Modelled from the spec: the API client collaborator (`./common/api`, not
under src/) "returns a response object with a status/error indicator and a
body", and `$.isErrorResponse` flags the error indicator. -/
structure Resp (α : Type) where
  isError : Bool
  body : α
  deriving DecidableEq

/-- One of the two sections (`messages` / `mentions`) of the output feed. -/
structure FeedSection where
  count : Nat
  items : List Item
  deriving DecidableEq

/-- The output payload `data`. -/
structure Feed where
  messages : FeedSection
  mentions : FeedSection
  deriving DecidableEq

/-- The slice of the inbound activity object the handler writes to. -/
structure Activity where
  responseData : Option Feed
  responseErrorCode : Int
  deriving DecidableEq

/-- One hour in milliseconds (JS `setHours` arithmetic). -/
def hourMs : Int := 3600000

/-- `isRecent(date)`: `then > now - 1200 hours`, strict. -/
def isRecent (now date : Int) : Bool := decide (now - 1200 * hourMs < date)

/-- `filterMessagesByTime(messages)`: keep the leading run of recent
messages, stop at the first non-recent one. -/
def filterMessagesByTime (now : Int) : List Message → List Message
  | [] => []
  | m :: rest =>
    if isRecent now m.created then m :: filterMessagesByTime now rest else []

/-- Stable insertion step for the descending sort of rooms by
`lastActivity` (the JS comparator returns -1 when `a > b` and 0 on ties,
and `Array.prototype.sort` is stable, so an original-earlier room is
placed before equal-key rooms). -/
def insertRoom (r : Room) : List Room → List Room
  | [] => [r]
  | x :: xs =>
    if x.lastActivity ≤ r.lastActivity then r :: x :: xs else x :: insertRoom r xs

/-- `rooms.sort(...)`: stable descending sort by `lastActivity`. -/
def sortRooms : List Room → List Room
  | [] => []
  | r :: rest => insertRoom r (sortRooms rest)

/-- The fetch fan-out loop: walk the sorted rooms and stop at the first one
whose `lastActivity` is not recent; only these rooms get a message fetch. -/
def selectedRooms (now : Int) (body : List Room) : List Room :=
  (sortRooms body).takeWhile (fun r => isRecent now r.lastActivity)

/-- The loop over `messagesResponses`: abort (return `none`) at the first
error response, otherwise collect the recency-filtered messages per room. -/
def collectFiltered (now : Int) : List (Resp (List Message)) → Option (List (List Message))
  | [] => some []
  | r :: rest =>
    if r.isError then none
    else (collectFiltered now rest).map (fun ls => filterMessagesByTime now r.body :: ls)

/-- `constructItem(raw)`. -/
def constructItem (raw : Message) : Item :=
  { id := raw.id
    title := raw.roomType
    description := raw.text
    date := raw.created
    personId := raw.personId
    raw := raw
    gtype := none
    roomName := none
    roomAvatar := none
    initials := none
    hiddenCount := none
    displayName := none }

/-- The inner scan `for (k) if (raw.roomId === rooms[k].id) ...` – first
matching room's title, if any. -/
def lookupRoomName (rooms : List Room) (roomId : String) : Option String :=
  match rooms with
  | [] => none
  | r :: rest => if r.id = roomId then some r.title else lookupRoomName rest roomId

/-- The `switch (currentRoomMessages)` of the message loop: case 1 sets
`first` and resolves the room name, cases `len - 1` and `3` share a body
setting `last` and `hiddenCount = len - 3`. -/
def tagMessage (rooms : List Room) (len cnt : Nat) (it : Item) : Item :=
  if cnt = 1 then
    { it with gtype := some "first", roomName := lookupRoomName rooms it.raw.roomId }
  else if cnt = len - 1 ∨ cnt = 3 then
    { it with gtype := some "last", hiddenCount := some ((len : Int) - 3) }
  else it

/-- The `switch (currentRoomMentions)` of the mention loop: case 1 sets
`first` and the room name, cases `mentionedPeople.length - 1` and `3` share
a body setting only `last` (no `hiddenCount` here). -/
def tagMention (rooms : List Room) (mlen cnt : Nat) (it : Item) : Item :=
  if cnt = 1 then
    { it with gtype := some "first", roomName := lookupRoomName rooms it.raw.roomId }
  else if cnt = mlen - 1 ∨ cnt = 3 then
    { it with gtype := some "last" }
  else it

/-- The per-room message loop (`for (j) currentRoomMessages < 3 && ...`):
skip empty-text messages, count the constructed items, tag by count.
`len` is the room's recency-filtered message count. -/
def messageLoop (rooms : List Room) (len : Nat) : List Message → Nat → List Item
  | [], _ => []
  | m :: rest, cnt =>
    if cnt < 3 then
      if m.text = "" then messageLoop rooms len rest cnt
      else tagMessage rooms len (cnt + 1) (constructItem m) :: messageLoop rooms len rest (cnt + 1)
    else []

/-- The per-room mention loop: skip messages without `mentionedPeople` or
with empty text; on the first mention equal to the caller's id, construct
one item and move to the next message.  Returns the pushed items together
with the final `currentRoomMentions` counter. -/
def mentionLoop (rooms : List Room) (meId : String) : List Message → Nat → List Item × Nat
  | [], cnt => ([], cnt)
  | m :: rest, cnt =>
    if cnt < 3 then
      match m.mentionedPeople with
      | none => mentionLoop rooms meId rest cnt
      | some ppl =>
        if m.text = "" then mentionLoop rooms meId rest cnt
        else if meId ∈ ppl then
          let r := mentionLoop rooms meId rest (cnt + 1)
          (tagMention rooms ppl.length (cnt + 1) (constructItem m) :: r.1, r.2)
        else mentionLoop rooms meId rest cnt
    else ([], cnt)

/-- One iteration of the `for` over `filteredMessages`: accumulate the raw
message count, append the constructed message items, run the mention loop
and accumulate its counter and items. -/
def processRoom (rooms : List Room) (meId : String) (data : Feed) (msgs : List Message) : Feed :=
  let msgItems := messageLoop rooms msgs.length msgs 0
  let p := mentionLoop rooms meId msgs 0
  { messages :=
      { count := data.messages.count + msgs.length
        items := data.messages.items ++ msgItems }
    mentions :=
      { count := data.mentions.count + p.2
        items := data.mentions.items ++ p.1 } }

/-- The whole loop over rooms, starting from the empty `data` object. -/
def processRooms (rooms : List Room) (meId : String) (filtered : List (List Message)) : Feed :=
  filtered.foldl (processRoom rooms meId) ⟨⟨0, []⟩, ⟨0, []⟩⟩

/-- Order-preserving deduplication (first occurrence wins), accumulator of
already-seen keys first. -/
def dedupFirstAux (seen : List String) : List String → List String
  | [] => []
  | x :: xs => if x ∈ seen then dedupFirstAux seen xs else x :: dedupFirstAux (x :: seen) xs

/-- The `userPromises` map keys in insertion order: per room, the message
items' author ids then the mention items' author ids, first occurrence
wins. -/
def promisedIds (rooms : List Room) (meId : String) (filtered : List (List Message)) : List String :=
  dedupFirstAux []
    (filtered.foldl
      (fun acc msgs =>
        acc ++ (messageLoop rooms msgs.length msgs 0).map (·.personId)
            ++ (mentionLoop rooms meId msgs 0).1.map (·.personId))
      [])

/-- `names[k].charAt(0)`: the first character of a word, or the empty
string for an empty word. -/
def firstChar (s : String) : String :=
  match s.data with
  | [] => ""
  | c :: _ => String.mk [c]

/-- The initials loop: up to two words' first characters, but exactly one
for `group` rooms. -/
def mkInitials (title rn : String) : String :=
  match rn.splitOn " " with
  | [] => ""
  | n1 :: rest =>
    if title = "group" then firstChar n1
    else
      match rest with
      | [] => firstChar n1
      | n2 :: _ => firstChar n1 ++ firstChar n2

/-- The display-name branch of `extendProperties`: the caller's own items
get `"You"`, the resolved user's items get their display name. -/
def nameStep (meId : String) (user : UserInfo) (it : Item) : Item :=
  if it.personId = meId then { it with displayName := some "You" }
  else if it.personId = user.id then { it with displayName := some user.displayName }
  else it

/-- The avatar / initials branch of `extendProperties`, applied to `first`
items only.  `!roomAvatar` is JS-falsy both for an absent avatar and for
an empty-string avatar.  A `none` result models the JS `TypeError` thrown
by `roomName.split(' ')` when `roomName` is absent (`Option.map` over the
absent name yields `none`). -/
def avatarStep (user : UserInfo) (it : Item) : Option Item :=
  if it.gtype = some "first" then
    let it2 :=
      if it.title = "direct" ∧ it.roomName = some user.displayName then
        { it with roomAvatar := user.avatar }
      else it
    if it2.roomAvatar = none ∨ it2.roomAvatar = some "" then
      it2.roomName.map (fun rn => { it2 with initials := some (mkInitials it2.title rn) })
    else some it2
  else some it

/-- One item's step of `extendProperties`: the display-name branch, then
the avatar / initials branch. -/
def extendOne (meId : String) (user : UserInfo) (it : Item) : Option Item :=
  avatarStep user (nameStep meId user it)

/-- `extendProperties(me, user, messages)` over a whole item list. -/
def extendProperties (meId : String) (user : UserInfo) : List Item → Option (List Item)
  | [] => some []
  | it :: rest =>
    match extendOne meId user it with
    | none => none
    | some it' =>
      match extendProperties meId user rest with
      | none => none
      | some rest' => some (it' :: rest')

/-- The user-resolution loop (lines 178-187): error responses are skipped,
each resolved user's info is mapped over both item lists. -/
def enrichAll (meId : String) : List (Resp UserInfo) → List Item → List Item → Option (List Item × List Item)
  | [], ms, mts => some (ms, mts)
  | u :: rest, ms, mts =>
    if u.isError then enrichAll meId rest ms mts
    else
      match extendProperties meId u.body ms with
      | none => none
      | some ms' =>
        match extendProperties meId u.body mts with
        | none => none
        | some mts' => enrichAll meId rest ms' mts'

/-- The characters admitted inside a `spark-mention` tag by the extraction
regex: `\w`, `\d`, newline, space and the bracketed punctuation set. -/
def mentionPunct : List Char :=
  ['(', ')', '.', ',', '-', ':', ';', '@', '#', '$', '%', '^', '&', '*',
   '[', ']', Char.ofNat 34, Char.ofNat 39, '+', '–', '/', '®', '°', '⁰',
   '!', '?', Char.ofNat 123, Char.ofNat 125, '|', Char.ofNat 96, '~']

/-- Decidable membership in the mention character class. -/
def isMentionChar (c : Char) : Bool :=
  c.isAlphanum || c = '_' || c = Char.ofNat 10 || c = ' ' || mentionPunct.contains c

/-- Character-list version of `String.startsWith`, used to keep the scanner
primitive. -/
def leadsWith : List Char → List Char → Bool
  | [], _ => true
  | _ :: _, [] => false
  | a :: as, b :: bs => a = b && leadsWith as bs

/-- The characters of the literal `<spark-mention` opening of the regex. -/
def openTagChars : List Char := "<spark-mention".data

/-- The characters of the `</spark-mention>` lookahead of the regex. -/
def closeTagChars : List Char := "</spark-mention>".data

/-- The lazy `(.*?)>` part of the opening tag: the characters before the
first `>` and the remainder after it, or `none` when no `>` follows. -/
def takeUntilGt : List Char → Option (List Char × List Char)
  | [] => none
  | c :: cs =>
    if c = '>' then some ([], cs)
    else (takeUntilGt cs).map (fun p => (c :: p.1, p.2))

/-- The maximal run of mention-class characters and the remainder. -/
def takeRun : List Char → List Char × List Char
  | [] => ([], [])
  | c :: cs =>
    if isMentionChar c then
      let p := takeRun cs
      (c :: p.1, p.2)
    else ([], c :: cs)

/-- Global scan of `html.match(regex)` for the well-formed tag shapes the
regex is aimed at: at each position, an opening `<spark-mention...>` whose
nonempty inner run of mention-class characters is immediately followed by
`</spark-mention>` yields one match (the opening tag plus the inner text),
and scanning resumes after the inner text, as the JS `lastIndex` does.
`fuel` is the length of the scanned list, enough for the whole scan. -/
def extractMatchesAux : Nat → List Char → List String
  | 0, _ => []
  | fuel + 1, s =>
    match s with
    | [] => []
    | _ :: cs =>
      if leadsWith openTagChars s then
        match takeUntilGt (s.drop openTagChars.length) with
        | none => extractMatchesAux fuel cs
        | some (mid, rest) =>
          let pr := takeRun rest
          if pr.1 ≠ [] ∧ leadsWith closeTagChars pr.2 then
            String.mk (openTagChars ++ mid ++ ['>'] ++ pr.1) :: extractMatchesAux fuel pr.2
          else extractMatchesAux fuel cs
      else extractMatchesAux fuel cs

/-- `raw.html.match(regex)` as a list of match strings. -/
def extractMatches (html : String) : List String :=
  extractMatchesAux html.data.length html.data

/-- `match.substring(match.lastIndexOf('>') + 1)`: everything after the
last `>`, the whole string when there is none. -/
def afterLastGt (s : String) : String :=
  String.mk ((s.data.reverse.takeWhile (fun c => c ≠ '>')).reverse)

/-- The JS regex metacharacters.  Extracted mention names can contain all
of them except the backslash (the extraction character class has no `\`). -/
def regexMeta : List Char :=
  ['.', '(', ')', '[', ']', Char.ofNat 123, Char.ofNat 125, '|', '^', '$',
   '*', '+', '?', '\\']

/-- A character with no regex meaning: it stands for itself in a pattern
built by `new RegExp` and has no special meaning in a replacement string. -/
def plainChar (c : Char) : Bool := !(regexMeta.contains c)

/-- The pattern fragment this embedding implements for `new RegExp(match,
'g')`: a nonempty name whose characters are all plain except the `.`
wildcard.  Such a name is always a valid regex, so `new RegExp` cannot
throw on it.  A name outside the fragment is out of this model: on it the
source either throws a `SyntaxError` (an invalid pattern such as `+` or
`((`, reaching the top-level catch) or applies quantifier / group / class
/ anchor / alternation semantics this embedding does not implement; the
styling phase maps such runs to `none` and no theorem below draws any
conclusion about them. -/
def nameSupported (s : String) : Bool :=
  s.data ≠ [] && s.data.all (fun c => plainChar c || c = '.')

/-- What the `.` wildcard matches in JS: any character except a line
terminator. -/
def dotMatches (c : Char) : Bool :=
  !(c = Char.ofNat 10 || c = Char.ofNat 13 || c = Char.ofNat 0x2028 || c = Char.ofNat 0x2029)

/-- One positional step of the JS regex built by `new RegExp(match, 'g')`,
on the supported fragment: every character matches itself except `.`,
which matches any character other than a line terminator. -/
def patMatchesAt : List Char → List Char → Bool
  | [], _ => true
  | _ :: _, [] => false
  | p :: ps, c :: cs => ((p = '.') && dotMatches c || p = c) && patMatchesAt ps cs

/-- `description.replace(allMatches, repl)` with a global regex: scan left
to right, replace each non-overlapping match and resume after it.  `fuel`
is the length of the scanned list; extraction guarantees `pat ≠ []`. -/
def regexReplaceAllAux (pat repl : List Char) : Nat → List Char → List Char
  | 0, s => s
  | fuel + 1, s =>
    match s with
    | [] => []
    | c :: cs =>
      if pat ≠ [] ∧ patMatchesAt pat (c :: cs) then
        repl ++ regexReplaceAllAux pat repl fuel (cs.drop (pat.length - 1))
      else c :: regexReplaceAllAux pat repl fuel cs

/-- String-level wrapper of `regexReplaceAllAux`. -/
def regexReplaceAll (pat repl s : String) : String :=
  String.mk (regexReplaceAllAux pat.data repl.data s.data.length s.data)

/-- Modelled from the spec: the literal-substring replacement the spec's
words describe ("replace every literal occurrence of that name"), for
comparison with the regex replacement the code performs. -/
def literalReplaceAllAux (pat repl : List Char) : Nat → List Char → List Char
  | 0, s => s
  | fuel + 1, s =>
    match s with
    | [] => []
    | c :: cs =>
      if pat ≠ [] ∧ leadsWith pat (c :: cs) then
        repl ++ literalReplaceAllAux pat repl fuel (cs.drop (pat.length - 1))
      else c :: literalReplaceAllAux pat repl fuel cs

/-- String-level wrapper of `literalReplaceAllAux`. -/
def literalReplaceAll (pat repl s : String) : String :=
  String.mk (literalReplaceAllAux pat.data repl.data s.data.length s.data)

/-- The styled wrapper inserted around a mention name. -/
def styledSpan (name : String) : String :=
  "<span class=\x22blue\x22>@" ++ name ++ "</span>"

/-- The `for (k)` over `matches`: extract the name after the last `>`,
skip names already processed (`matched.has`), otherwise build
`new RegExp(match, 'g')` and replace all its occurrences in the
description.  A name outside the supported fragment yields `none`: there
the source either throws a `SyntaxError` at the `new RegExp` call or runs
regex machinery this model does not implement (see `nameSupported`). -/
def applyMatches : List String → List String → String → Option String
  | [], _, desc => some desc
  | m :: rest, seen, desc =>
    let name := afterLastGt m
    if name ∈ seen then applyMatches rest seen desc
    else if nameSupported name then
      applyMatches rest (name :: seen) (regexReplaceAll name (styledSpan name) desc)
    else none

/-- `matchMentions` on a single item: skip items without (truthy) html or
without matches, otherwise rewrite the description; `none` propagates an
aborted replacement. -/
def styleItem (it : Item) : Option Item :=
  match it.raw.html with
  | none => some it
  | some html =>
    if html = "" then some it
    else
      let ms := extractMatches html
      if ms = [] then some it
      else (applyMatches ms [] it.description).map (fun d => { it with description := d })

/-- `matchMentions(messages)` over a whole item list, stopping at the
first aborted item. -/
def matchMentions : List Item → Option (List Item)
  | [] => some []
  | it :: rest =>
    match styleItem it with
    | none => none
    | some it' =>
      match matchMentions rest with
      | none => none
      | some rest' => some (it' :: rest')

/-- Boolean substring test, used to state that a name does not occur
literally in a description. -/
def occursIn (pat : List Char) : List Char → Bool
  | [] => leadsWith pat []
  | c :: cs => leadsWith pat (c :: cs) || occursIn pat cs

/-- The whole activity handler (module.exports): fetch rooms, abort on an
error response; sort and select rooms; fan out message fetches, abort on
any error response; fetch `me` (never error-checked in the source); build
the feed; resolve user details, skipping error responses; style mentions;
assign `Response.Data` and reset `Response.ErrorCode`.  A `none` from the
enrichment phase models a thrown exception reaching the top-level catch;
a `none` from the styling phase covers the `SyntaxError` thrown by
`new RegExp` on an invalid extracted name (also caught at top level, so
`Response.Data` is never assigned) as well as names outside the modelled
regex fragment, about which no theorem below says anything. -/
def handler (now : Int) (roomsResp : Resp (List Room))
    (msgsOf : String → Resp (List Message)) (meResp : Resp UserInfo)
    (userOf : String → Resp UserInfo) (act : Activity) : Activity :=
  if roomsResp.isError then act
  else
    let rooms := sortRooms roomsResp.body
    match collectFiltered now ((selectedRooms now roomsResp.body).map (fun r => msgsOf r.id)) with
    | none => act
    | some filtered =>
      let meId := meResp.body.id
      let data := processRooms rooms meId filtered
      let users := (promisedIds rooms meId filtered).map userOf
      match enrichAll meId users data.messages.items data.mentions.items with
      | none => act
      | some p =>
        match matchMentions p.1 with
        | none => act
        | some ms =>
          match matchMentions p.2 with
          | none => act
          | some mts =>
            { act with
              responseData := some
                { messages := { count := data.messages.count, items := ms }
                  mentions := { count := data.mentions.count, items := mts } }
              responseErrorCode := 0 }

/-! ## Helper lemmas -/

lemma filter_eq_takeWhile (now : Int) (msgs : List Message) :
    filterMessagesByTime now msgs = msgs.takeWhile (fun m => isRecent now m.created) := by
  induction msgs with
  | nil => rfl
  | cons m rest ih =>
    unfold filterMessagesByTime
    rw [List.takeWhile_cons]
    by_cases h : isRecent now m.created
    · simp [h, ih]
    · simp [h]

lemma messageLoop_length_le (rooms : List Room) (len : Nat) :
    ∀ (msgs : List Message) (cnt : Nat), (messageLoop rooms len msgs cnt).length ≤ 3 - cnt := by
  intro msgs
  induction msgs with
  | nil => intro cnt; simp [messageLoop]
  | cons m rest ih =>
    intro cnt
    by_cases h3 : cnt < 3
    · by_cases ht : m.text = ""
      · simpa [messageLoop, h3, ht] using ih cnt
      · have := ih (cnt + 1)
        simp only [messageLoop, if_pos h3, if_neg ht, List.length_cons]
        omega
    · simp [messageLoop, h3]

lemma mentionLoop_length_le (rooms : List Room) (meId : String) :
    ∀ (msgs : List Message) (cnt : Nat), (mentionLoop rooms meId msgs cnt).1.length ≤ 3 - cnt := by
  intro msgs
  induction msgs with
  | nil => intro cnt; simp [mentionLoop]
  | cons m rest ih =>
    intro cnt
    by_cases h3 : cnt < 3
    · cases hmp : m.mentionedPeople with
      | none => simpa [mentionLoop, h3, hmp] using ih cnt
      | some ppl =>
        by_cases ht : m.text = ""
        · simpa [mentionLoop, h3, hmp, ht] using ih cnt
        · by_cases hme : meId ∈ ppl
          · have := ih (cnt + 1)
            simp only [mentionLoop, if_pos h3, hmp, if_neg ht, if_pos hme, List.length_cons]
            omega
          · simpa [mentionLoop, h3, hmp, ht, hme] using ih cnt
    · simp [mentionLoop, h3]

lemma mentionLoop_count (rooms : List Room) (meId : String) :
    ∀ (msgs : List Message) (cnt : Nat),
      (mentionLoop rooms meId msgs cnt).2 = cnt + (mentionLoop rooms meId msgs cnt).1.length := by
  intro msgs
  induction msgs with
  | nil => intro cnt; simp [mentionLoop]
  | cons m rest ih =>
    intro cnt
    by_cases h3 : cnt < 3
    · cases hmp : m.mentionedPeople with
      | none => simpa [mentionLoop, h3, hmp] using ih cnt
      | some ppl =>
        by_cases ht : m.text = ""
        · simpa [mentionLoop, h3, hmp, ht] using ih cnt
        · by_cases hme : meId ∈ ppl
          · have := ih (cnt + 1)
            simp only [mentionLoop, if_pos h3, hmp, if_neg ht, if_pos hme, List.length_cons]
            omega
          · simpa [mentionLoop, h3, hmp, ht, hme] using ih cnt
    · simp [mentionLoop, h3]

lemma processRoom_msg_items (rooms : List Room) (meId : String) (acc : Feed) (msgs : List Message) :
    (processRoom rooms meId acc msgs).messages.items
      = acc.messages.items ++ messageLoop rooms msgs.length msgs 0 := rfl

lemma processRoom_ment_items (rooms : List Room) (meId : String) (acc : Feed) (msgs : List Message) :
    (processRoom rooms meId acc msgs).mentions.items
      = acc.mentions.items ++ (mentionLoop rooms meId msgs 0).1 := rfl

lemma processRoom_msg_count (rooms : List Room) (meId : String) (acc : Feed) (msgs : List Message) :
    (processRoom rooms meId acc msgs).messages.count
      = acc.messages.count + msgs.length := rfl

lemma processRoom_ment_count (rooms : List Room) (meId : String) (acc : Feed) (msgs : List Message) :
    (processRoom rooms meId acc msgs).mentions.count
      = acc.mentions.count + (mentionLoop rooms meId msgs 0).2 := rfl

lemma foldl_items_le (rooms : List Room) (meId : String) :
    ∀ (filtered : List (List Message)) (acc : Feed),
      (filtered.foldl (processRoom rooms meId) acc).messages.items.length
        ≤ acc.messages.items.length + 3 * filtered.length
    ∧ (filtered.foldl (processRoom rooms meId) acc).mentions.items.length
        ≤ acc.mentions.items.length + 3 * filtered.length := by
  intro filtered
  induction filtered with
  | nil => intro acc; simp
  | cons msgs rest ih =>
    intro acc
    have h1 := messageLoop_length_le rooms msgs.length msgs 0
    have h2 := mentionLoop_length_le rooms meId msgs 0
    have h3 := ih (processRoom rooms meId acc msgs)
    have e1 := congrArg List.length (processRoom_msg_items rooms meId acc msgs)
    have e2 := congrArg List.length (processRoom_ment_items rooms meId acc msgs)
    simp only [List.length_append] at e1 e2
    simp only [List.foldl_cons, List.length_cons]
    omega

lemma foldl_msg_count (rooms : List Room) (meId : String) :
    ∀ (filtered : List (List Message)) (acc : Feed),
      (filtered.foldl (processRoom rooms meId) acc).messages.count
        = acc.messages.count + (filtered.map List.length).sum := by
  intro filtered
  induction filtered with
  | nil => intro acc; simp
  | cons msgs rest ih =>
    intro acc
    have h := ih (processRoom rooms meId acc msgs)
    have e := processRoom_msg_count rooms meId acc msgs
    simp only [List.foldl_cons, List.map_cons, List.sum_cons]
    omega

lemma foldl_mention_count (rooms : List Room) (meId : String) :
    ∀ (filtered : List (List Message)) (acc : Feed),
      acc.mentions.count = acc.mentions.items.length →
      (filtered.foldl (processRoom rooms meId) acc).mentions.count
        = (filtered.foldl (processRoom rooms meId) acc).mentions.items.length := by
  intro filtered
  induction filtered with
  | nil => intro acc h; simpa using h
  | cons msgs rest ih =>
    intro acc h
    simp only [List.foldl_cons]
    apply ih
    have hc := mentionLoop_count rooms meId msgs 0
    have e1 := processRoom_ment_count rooms meId acc msgs
    have e2 := congrArg List.length (processRoom_ment_items rooms meId acc msgs)
    simp only [List.length_append] at e2
    omega

/-- The gtype the message switch attaches at constructed-count `c` in a
room with `len` recency-filtered messages. -/
def gtypeAt (len c : Nat) : Option String :=
  if c = 1 then some "first"
  else if c = len - 1 ∨ c = 3 then some "last"
  else none

/-- The hiddenCount the message switch attaches at constructed-count `c`. -/
def hiddenAt (len c : Nat) : Option Int :=
  if c = 1 then none
  else if c = len - 1 ∨ c = 3 then some ((len : Int) - 3)
  else none

/-- The gtype the mention switch attaches at constructed-count `c` for an
item built from message `m` (the `last` case compares against that
message's own `mentionedPeople.length - 1`). -/
def mentionGtypeAt (m : Message) (c : Nat) : Option String :=
  if c = 1 then some "first"
  else if c = (m.mentionedPeople.getD []).length - 1 ∨ c = 3 then some "last"
  else none

lemma tagMessage_gtype (rooms : List Room) (len cnt : Nat) (m : Message) :
    (tagMessage rooms len cnt (constructItem m)).gtype = gtypeAt len cnt := by
  unfold tagMessage gtypeAt constructItem
  split_ifs <;> rfl

lemma tagMessage_hidden (rooms : List Room) (len cnt : Nat) (m : Message) :
    (tagMessage rooms len cnt (constructItem m)).hiddenCount = hiddenAt len cnt := by
  unfold tagMessage hiddenAt constructItem
  split_ifs <;> rfl

lemma tagMention_raw (rooms : List Room) (mlen cnt : Nat) (m : Message) :
    (tagMention rooms mlen cnt (constructItem m)).raw = m := by
  unfold tagMention constructItem
  split_ifs <;> rfl

lemma tagMention_gtype (rooms : List Room) (mlen cnt : Nat) (m : Message) :
    (tagMention rooms mlen cnt (constructItem m)).gtype
      = (if cnt = 1 then some "first"
         else if cnt = mlen - 1 ∨ cnt = 3 then some "last" else none) := by
  unfold tagMention constructItem
  split_ifs <;> rfl

lemma tagMention_hidden (rooms : List Room) (mlen cnt : Nat) (m : Message) :
    (tagMention rooms mlen cnt (constructItem m)).hiddenCount = none := by
  unfold tagMention constructItem
  split_ifs <;> rfl

lemma messageLoop_get? (rooms : List Room) (len : Nat) :
    ∀ (msgs : List Message) (cnt i : Nat) (it : Item),
      (messageLoop rooms len msgs cnt)[i]? = some it →
        it.gtype = gtypeAt len (cnt + i + 1) ∧ it.hiddenCount = hiddenAt len (cnt + i + 1) := by
  intro msgs
  induction msgs with
  | nil => intro cnt i it h; simp [messageLoop] at h
  | cons m rest ih =>
    intro cnt i it h
    by_cases h3 : cnt < 3
    · by_cases ht : m.text = ""
      · rw [show messageLoop rooms len (m :: rest) cnt = messageLoop rooms len rest cnt from by
          simp [messageLoop, h3, ht]] at h
        exact ih cnt i it h
      · rw [show messageLoop rooms len (m :: rest) cnt
            = tagMessage rooms len (cnt + 1) (constructItem m) :: messageLoop rooms len rest (cnt + 1) from by
          simp [messageLoop, h3, ht]] at h
        cases i with
        | zero =>
          simp only [List.getElem?_cons_zero, Option.some_inj] at h
          subst h
          exact ⟨tagMessage_gtype rooms len (cnt + 1) m, tagMessage_hidden rooms len (cnt + 1) m⟩
        | succ i' =>
          simp only [List.getElem?_cons_succ] at h
          have hr := ih (cnt + 1) i' it h
          have e : cnt + 1 + i' + 1 = cnt + (i' + 1) + 1 := by omega
          rw [e] at hr
          exact hr
    · simp [messageLoop, h3] at h

lemma mentionLoop_get? (rooms : List Room) (meId : String) :
    ∀ (msgs : List Message) (cnt i : Nat) (it : Item),
      (mentionLoop rooms meId msgs cnt).1[i]? = some it →
        it.gtype = mentionGtypeAt it.raw (cnt + i + 1) ∧ it.hiddenCount = none := by
  intro msgs
  induction msgs with
  | nil => intro cnt i it h; simp [mentionLoop] at h
  | cons m rest ih =>
    intro cnt i it h
    by_cases h3 : cnt < 3
    · cases hmp : m.mentionedPeople with
      | none =>
        rw [show (mentionLoop rooms meId (m :: rest) cnt).1 = (mentionLoop rooms meId rest cnt).1 from by
          simp [mentionLoop, h3, hmp]] at h
        exact ih cnt i it h
      | some ppl =>
        by_cases ht : m.text = ""
        · rw [show (mentionLoop rooms meId (m :: rest) cnt).1 = (mentionLoop rooms meId rest cnt).1 from by
            simp [mentionLoop, h3, hmp, ht]] at h
          exact ih cnt i it h
        · by_cases hme : meId ∈ ppl
          · rw [show (mentionLoop rooms meId (m :: rest) cnt).1
                = tagMention rooms ppl.length (cnt + 1) (constructItem m)
                    :: (mentionLoop rooms meId rest (cnt + 1)).1 from by
              simp [mentionLoop, h3, hmp, ht, hme]] at h
            cases i with
            | zero =>
              simp only [List.getElem?_cons_zero, Option.some_inj] at h
              subst h
              refine ⟨?_, tagMention_hidden rooms ppl.length (cnt + 1) m⟩
              rw [tagMention_gtype, mentionGtypeAt, tagMention_raw, hmp]
              simp
            | succ i' =>
              simp only [List.getElem?_cons_succ] at h
              have hr := ih (cnt + 1) i' it h
              have e : cnt + 1 + i' + 1 = cnt + (i' + 1) + 1 := by omega
              rw [e] at hr
              exact hr
          · rw [show (mentionLoop rooms meId (m :: rest) cnt).1 = (mentionLoop rooms meId rest cnt).1 from by
              simp [mentionLoop, h3, hmp, ht, hme]] at h
            exact ih cnt i it h
    · simp [mentionLoop, h3] at h

lemma collect_none (now : Int) :
    ∀ (rs : List (Resp (List Message))), (∃ r ∈ rs, r.isError = true) →
      collectFiltered now rs = none := by
  intro rs
  induction rs with
  | nil => rintro ⟨x, hx, _⟩; simp at hx
  | cons r rest ih =>
    rintro ⟨x, hx, hxe⟩
    by_cases he : r.isError
    · simp [collectFiltered, he]
    · rcases List.mem_cons.1 hx with rfl | hx'
      · exact absurd hxe (by simp [he])
      · rw [show collectFiltered now (r :: rest)
            = (collectFiltered now rest).map (fun ls => filterMessagesByTime now r.body :: ls) from by
          simp [collectFiltered, he]]
        rw [ih ⟨x, hx', hxe⟩]
        rfl

lemma enrichAll_cons_err {meId : String} {u : Resp UserInfo} {rest : List (Resp UserInfo)}
    {ms mts : List Item} (he : u.isError = true) :
    enrichAll meId (u :: rest) ms mts = enrichAll meId rest ms mts := by
  simp [enrichAll, he]

lemma enrichAll_cons_ok {meId : String} {u : Resp UserInfo} {rest : List (Resp UserInfo)}
    {ms mts : List Item} (he : u.isError = false) :
    enrichAll meId (u :: rest) ms mts
      = match extendProperties meId u.body ms with
        | none => none
        | some ms' =>
          match extendProperties meId u.body mts with
          | none => none
          | some mts' => enrichAll meId rest ms' mts' := by
  simp [enrichAll, he]

lemma nameStep_personId (meId : String) (u : UserInfo) (it : Item) :
    (nameStep meId u it).personId = it.personId := by
  unfold nameStep
  split_ifs <;> rfl

lemma nameStep_you {meId : String} (u : UserInfo) {it : Item} (h : it.personId = meId) :
    (nameStep meId u it).displayName = some "You" := by
  unfold nameStep
  rw [if_pos h]

lemma avatarStep_personId {u : UserInfo} {it it' : Item} (h : avatarStep u it = some it') :
    it'.personId = it.personId := by
  simp only [avatarStep] at h
  split_ifs at h <;>
    first
      | (rcases Option.map_eq_some'.1 h with ⟨rn, _, rfl⟩; rfl)
      | (rw [← Option.some_inj.1 h])

lemma avatarStep_displayName {u : UserInfo} {it it' : Item} (h : avatarStep u it = some it') :
    it'.displayName = it.displayName := by
  simp only [avatarStep] at h
  split_ifs at h <;>
    first
      | (rcases Option.map_eq_some'.1 h with ⟨rn, _, rfl⟩; rfl)
      | (rw [← Option.some_inj.1 h])

lemma extendOne_personId {meId : String} {u : UserInfo} {it it' : Item}
    (h : extendOne meId u it = some it') : it'.personId = it.personId := by
  rw [avatarStep_personId h, nameStep_personId]

lemma extendOne_you {meId : String} {u : UserInfo} {it it' : Item}
    (hpid : it.personId = meId) (h : extendOne meId u it = some it') :
    it'.displayName = some "You" := by
  rw [avatarStep_displayName h, nameStep_you u hpid]

lemma extendProperties_mem {meId : String} {u : UserInfo} :
    ∀ {ms ms' : List Item}, extendProperties meId u ms = some ms' →
      ∀ it' ∈ ms', ∃ it ∈ ms, extendOne meId u it = some it' := by
  intro ms
  induction ms with
  | nil =>
    intro ms' h it' hmem
    simp only [extendProperties, Option.some_inj] at h
    subst h
    simp at hmem
  | cons it rest ih =>
    intro ms' h it' hmem
    cases h1 : extendOne meId u it with
    | none =>
      simp only [extendProperties, h1] at h
      exact Option.noConfusion h
    | some it1 =>
      cases h2 : extendProperties meId u rest with
      | none =>
        simp only [extendProperties, h1, h2] at h
        exact Option.noConfusion h
      | some rest' =>
        simp only [extendProperties, h1, h2, Option.some_inj] at h
        subst h
        rcases List.mem_cons.1 hmem with rfl | hmem'
        · exact ⟨it, List.mem_cons_self it rest, h1⟩
        · rcases ih h2 it' hmem' with ⟨x, hx, hx'⟩
          exact ⟨x, List.mem_cons_of_mem it hx, hx'⟩

lemma extendProperties_you {meId : String} {u : UserInfo} {ms ms' : List Item}
    (h : extendProperties meId u ms = some ms') :
    ∀ it' ∈ ms', it'.personId = meId → it'.displayName = some "You" := by
  intro it' hmem hpid
  rcases extendProperties_mem h it' hmem with ⟨it, _, h1⟩
  have : it.personId = meId := by rw [← extendOne_personId h1]; exact hpid
  exact extendOne_you this h1

lemma enrich_preserve {meId : String} :
    ∀ (users : List (Resp UserInfo)) (ms mts : List Item) (p : List Item × List Item),
      (∀ it ∈ ms, it.personId = meId → it.displayName = some "You") →
      (∀ it ∈ mts, it.personId = meId → it.displayName = some "You") →
      enrichAll meId users ms mts = some p →
        (∀ it ∈ p.1, it.personId = meId → it.displayName = some "You")
      ∧ (∀ it ∈ p.2, it.personId = meId → it.displayName = some "You") := by
  intro users
  induction users with
  | nil =>
    intro ms mts p hms hmts h
    simp only [enrichAll, Option.some_inj] at h
    subst h
    exact ⟨hms, hmts⟩
  | cons u rest ih =>
    intro ms mts p hms hmts h
    cases hb : u.isError with
    | true =>
      rw [enrichAll_cons_err hb] at h
      exact ih ms mts p hms hmts h
    | false =>
      rw [enrichAll_cons_ok hb] at h
      cases h1 : extendProperties meId u.body ms with
      | none =>
        simp only [h1] at h
        exact Option.noConfusion h
      | some ms1 =>
        cases h2 : extendProperties meId u.body mts with
        | none =>
          simp only [h1, h2] at h
          exact Option.noConfusion h
        | some mts1 =>
          simp only [h1, h2] at h
          exact ih ms1 mts1 p (extendProperties_you h1) (extendProperties_you h2) h

lemma patMatches_eq_leadsWith :
    ∀ (pat s : List Char), '.' ∉ pat → patMatchesAt pat s = leadsWith pat s := by
  intro pat
  induction pat with
  | nil => intro s _; rfl
  | cons p ps ih =>
    intro s h
    have hp : (p = '.') = False := by
      simp only [eq_iff_iff, iff_false]
      intro he
      exact h (he ▸ List.mem_cons_self p ps)
    have hps : '.' ∉ ps := fun hm => h (List.mem_cons_of_mem p hm)
    cases s with
    | nil => rfl
    | cons c cs => simp [patMatchesAt, leadsWith, hp, ih cs hps]

lemma replaceAux_eq (pat repl : List Char) (h : '.' ∉ pat) :
    ∀ (fuel : Nat) (s : List Char),
      regexReplaceAllAux pat repl fuel s = literalReplaceAllAux pat repl fuel s := by
  intro fuel
  induction fuel with
  | zero => intro s; rfl
  | succ n ih =>
    intro s
    cases s with
    | nil => rfl
    | cons c cs =>
      simp only [regexReplaceAllAux, literalReplaceAllAux,
        patMatches_eq_leadsWith pat (c :: cs) h]
      split_ifs with hc
      · rw [ih]
      · rw [ih]

lemma applyMatches_dup :
    ∀ (ms : List String) (m : String) (seen : List String) (desc : String),
      afterLastGt m ∈ seen ∨ afterLastGt m ∈ ms.map afterLastGt →
        applyMatches (ms ++ [m]) seen desc = applyMatches ms seen desc := by
  intro ms
  induction ms with
  | nil =>
    intro m seen desc h
    rcases h with h | h
    · simp [applyMatches, h]
    · simp at h
  | cons m0 rest ih =>
    intro m seen desc h
    simp only [List.cons_append, applyMatches]
    by_cases h0 : afterLastGt m0 ∈ seen
    · rw [if_pos h0, if_pos h0]
      apply ih
      rcases h with h | h
      · exact Or.inl h
      · rw [List.map_cons] at h
        rcases List.mem_cons.1 h with he | hm
        · exact Or.inl (he ▸ h0)
        · exact Or.inr hm
    · rw [if_neg h0, if_neg h0]
      by_cases hs : nameSupported (afterLastGt m0)
      · rw [if_pos hs, if_pos hs]
        apply ih
        rcases h with h | h
        · exact Or.inl (List.mem_cons_of_mem _ h)
        · rw [List.map_cons] at h
          rcases List.mem_cons.1 h with he | hm
          · exact Or.inl (he ▸ List.mem_cons_self _ _)
          · exact Or.inr hm
      · rw [if_neg hs, if_neg hs]

/-! ## Concrete inputs for counterexamples and witnesses -/

/-- A message three hours old: not recent for a 2-hour cutoff, recent for
the 1200-hour cutoff the code uses. -/
def c1msg : Message := ⟨"m1", "r1", "group", "hi", none, -10800000, "p1", none⟩

/-- A message whose `created` sits exactly on the 1200-hour cutoff for
`now = 0`. -/
def c1cut : Message := ⟨"m2", "r1", "group", "hi", none, -4320000000, "p1", none⟩

/-- A room whose `lastActivity` is far older than the lookback cutoff. -/
def c6room : Room := ⟨"r9", "Old Room", -9000000000⟩

/-- A recency-filtered message with empty text: counted but never rendered
as an item. -/
def c10msg : Message := ⟨"m0", "r1", "group", "", none, 0, "p1", none⟩

/-- Three plain non-empty messages for a room with exactly 3 filtered
messages. -/
def c2m1 : Message := ⟨"a", "r1", "group", "t1", none, 0, "p1", none⟩

/-- Second message of the 3-message room. -/
def c2m2 : Message := ⟨"b", "r1", "group", "t2", none, 0, "p1", none⟩

/-- Third message of the 3-message room. -/
def c2m3 : Message := ⟨"c", "r1", "group", "t3", none, 0, "p1", none⟩

/-- The item the message loop builds at position 2 of the 3-message room:
tagged `last` with `hiddenCount = 0`. -/
def c2item : Item :=
  { id := "b", title := "group", description := "t2", date := 0, personId := "p1",
    raw := c2m2, gtype := some "last", roomName := none, roomAvatar := none,
    initials := none, hiddenCount := some 0, displayName := none }

/-- Three messages that each mention the caller. -/
def c3m1 : Message := ⟨"a", "r1", "group", "t1", none, 0, "p1", some ["me"]⟩

/-- Second mention-bearing message. -/
def c3m2 : Message := ⟨"b", "r1", "group", "t2", none, 0, "p1", some ["me"]⟩

/-- Third mention-bearing message. -/
def c3m3 : Message := ⟨"c", "r1", "group", "t3", none, 0, "p1", some ["me"]⟩

/-- The third mention item of that room: tagged `last`, no `hiddenCount`. -/
def c3item : Item :=
  { id := "c", title := "group", description := "t3", date := 0, personId := "p1",
    raw := c3m3, gtype := some "last", roomName := none, roomAvatar := none,
    initials := none, hiddenCount := none, displayName := none }

/-- The caller's identity body. -/
def cme : UserInfo := ⟨"me", "Me", none⟩

/-- Some other user's detail body. -/
def cuser : UserInfo := ⟨"x", "X", none⟩

/-- A recently active room. -/
def c8room : Room := ⟨"r1", "Room One", 0⟩

/-- A recent message authored by the caller. -/
def c8msg : Message := ⟨"m1", "r1", "group", "hi", none, 0, "me", none⟩

/-- An untagged item authored by the caller, before enrichment. -/
def c5item0 : Item := constructItem c8msg

/-- The same item after a successful enrichment pass. -/
def c5item1 : Item := { constructItem c8msg with displayName := some "You" }

/-- A message carrying mention markup whose extracted name `a.c` contains a
regex metacharacter. -/
def c7msg : Message :=
  ⟨"m7", "r1", "group", "abc", some "<spark-mention p>a.c</spark-mention>", 0, "p1", none⟩

/-- The display item built from `c7msg`; its description is `abc`. -/
def c7item : Item := constructItem c7msg

/-! ## Claims -/

/-- C1 (corrected is needed): the recency filter keeps this message whose
`created` is three hours before `now = 0`, although it is not strictly
newer than "now minus 2 hours" — the cutoff claimed by the spec. -/
theorem c1_counterexample :
    filterMessagesByTime 0 [c1msg] = [c1msg] ∧ c1msg.created ≤ 0 - 2 * hourMs := by
  decide

/-- C1 (amended): the recency filter returns exactly the prefix of messages
whose `created` is strictly newer than the cutoff "now minus 1200 hours"
(the same lookback used for rooms, not 2 hours), stopping at the first
older message; a message with `created` exactly equal to the cutoff is not
kept, and a strictly newer head is kept. -/
theorem c1_amended :
    (∀ (now : Int) (msgs : List Message),
        filterMessagesByTime now msgs = msgs.takeWhile (fun m => isRecent now m.created))
  ∧ (∀ (now : Int) (m : Message) (rest : List Message),
        m.created = now - 1200 * hourMs → filterMessagesByTime now (m :: rest) = [])
  ∧ (∀ (now : Int) (m : Message) (rest : List Message),
        now - 1200 * hourMs < m.created →
          filterMessagesByTime now (m :: rest) = m :: filterMessagesByTime now rest) := by
  refine ⟨filter_eq_takeWhile, ?_, ?_⟩
  · intro now m rest h
    have hr : isRecent now m.created = false := by
      simp only [isRecent, decide_eq_false_iff_not]
      omega
    simp [filterMessagesByTime, hr]
  · intro now m rest h
    have hr : isRecent now m.created = true := by
      simpa only [isRecent, decide_eq_true_eq] using h
    simp [filterMessagesByTime, hr]

/-- C1 witness: a message exactly on the cutoff instant is dropped. -/
theorem c1_witness : filterMessagesByTime 0 [c1cut] = [] :=
  c1_amended.2.1 0 c1cut [] (by decide)

/-- C2 (corrected is needed): in a room with exactly 3 filtered non-empty
messages, the message items are tagged `first`, `last`, `last` — the item
at position 2, which is neither position 1 nor position `min(3, total) = 3`,
carries a gtype tag, contradicting "no other item carries a gtype tag". -/
theorem c2_counterexample :
    (messageLoop [] [c2m1, c2m2, c2m3].length [c2m1, c2m2, c2m3] 0).map (·.gtype)
      = [some "first", some "last", some "last"] := by
  decide

/-- C2 (amended): the item at position 1 of a room group has
`gtype="first"`; an item at a later position `p` has `gtype="last"` exactly
when `p = 3` or `p` equals the room's filtered message count minus 1 (for
message items) resp. that item's own `mentionedPeople` count minus 1 (for
mention items) — so two items can be tagged `last` (e.g. 3 filtered
messages) and none may be (e.g. 2 filtered messages); no other item
carries a gtype tag. -/
theorem c2_amended (rooms : List Room) (meId : String) (msgs : List Message)
    (i : Nat) (it : Item) :
    ((messageLoop rooms msgs.length msgs 0)[i]? = some it →
        it.gtype = gtypeAt msgs.length (i + 1))
  ∧ ((mentionLoop rooms meId msgs 0).1[i]? = some it →
        it.gtype = mentionGtypeAt it.raw (i + 1)) := by
  constructor
  · intro h
    have hr := (messageLoop_get? rooms msgs.length msgs 0 i it h).1
    simpa using hr
  · intro h
    have hr := (mentionLoop_get? rooms meId msgs 0 i it h).1
    simpa using hr

/-- C2 witness: position 2 of the 3-message room is tagged per
`gtypeAt 3 2 = some "last"`. -/
theorem c2_witness : c2item.gtype = gtypeAt 3 2 :=
  (c2_amended [] "me" [c2m1, c2m2, c2m3] 1 c2item).1 (by decide)

/-- C3 (corrected is needed): in a room with three messages mentioning the
caller, the third mention item is tagged `gtype="last"` but carries no
`hiddenCount` at all, contradicting "every item tagged last has
hiddenCount set". -/
theorem c3_counterexample :
    ((mentionLoop [] "me" [c3m1, c3m2, c3m3] 0).1.map (·.gtype)
        = [some "first", none, some "last"])
  ∧ ((mentionLoop [] "me" [c3m1, c3m2, c3m3] 0).1.map (·.hiddenCount)
        = [none, none, none]) := by
  decide

/-- C3 (amended): `hiddenCount` is set exactly on the messages-list items
tagged `last`, equal to that room's filtered message count minus 3
(possibly zero or negative); mention items never carry `hiddenCount`, even
when tagged `last`. -/
theorem c3_amended (rooms : List Room) (meId : String) (msgs : List Message)
    (i : Nat) (it : Item) :
    ((messageLoop rooms msgs.length msgs 0)[i]? = some it →
        it.hiddenCount = hiddenAt msgs.length (i + 1))
  ∧ ((mentionLoop rooms meId msgs 0).1[i]? = some it → it.hiddenCount = none) := by
  constructor
  · intro h
    have hr := (messageLoop_get? rooms msgs.length msgs 0 i it h).2
    simpa using hr
  · intro h
    exact (mentionLoop_get? rooms meId msgs 0 i it h).2

/-- C3 witness: the third mention item of the 3-mention room has no
`hiddenCount`. -/
theorem c3_witness : c3item.hiddenCount = none :=
  (c3_amended [] "me" [c3m1, c3m2, c3m3] 2 c3item).2 (by decide)

/-- C5 (corrected is needed): a full run in which the only constructed item
is authored by the caller and the single user-detail fetch (the caller's
own) returns an error response — the enrichment loop skips that user, no
other pass runs, and the item's `displayName` stays unset instead of
becoming "You". -/
theorem c5_counterexample :
    ((handler 0 ⟨false, [c8room]⟩ (fun _ => ⟨false, [c8msg]⟩) ⟨false, cme⟩
        (fun _ => ⟨true, cuser⟩) ⟨none, 5⟩).responseData.map
      (fun f => f.messages.items.map (·.displayName))) = some [none]
  ∧ c8msg.personId = cme.id := by
  decide

/-- C5 (amended): provided at least one user-detail fetch resolves without
error (and the enrichment phase completes), every item whose `personId`
equals the caller's id ends the phase with `displayName = "You"`,
regardless of what any resolved user-detail fetch returned — because every
successful pass re-applies the "You" branch to the caller's items. -/
theorem c5_amended (meId : String) (users : List (Resp UserInfo)) (ms mts : List Item)
    (p : List Item × List Item)
    (hne : ∃ u ∈ users, u.isError = false)
    (hok : enrichAll meId users ms mts = some p) :
    (∀ it ∈ p.1, it.personId = meId → it.displayName = some "You")
  ∧ (∀ it ∈ p.2, it.personId = meId → it.displayName = some "You") := by
  induction users generalizing ms mts with
  | nil => rcases hne with ⟨u, hu, _⟩; simp at hu
  | cons u rest ih =>
    cases hb : u.isError with
    | false =>
      rw [enrichAll_cons_ok hb] at hok
      cases h1 : extendProperties meId u.body ms with
      | none =>
        simp only [h1] at hok
        exact Option.noConfusion hok
      | some ms1 =>
        cases h2 : extendProperties meId u.body mts with
        | none =>
          simp only [h1, h2] at hok
          exact Option.noConfusion hok
        | some mts1 =>
          simp only [h1, h2] at hok
          exact enrich_preserve rest ms1 mts1 p
            (extendProperties_you h1) (extendProperties_you h2) hok
    | true =>
      rw [enrichAll_cons_err hb] at hok
      rcases hne with ⟨x, hx, hxe⟩
      rcases List.mem_cons.1 hx with rfl | hx'
      · rw [hb] at hxe; exact Bool.noConfusion hxe
      · exact ih ms mts ⟨x, hx', hxe⟩ hok

/-- C5 witness: one successful user pass turns the caller's item into
"You". -/
theorem c5_witness :
    enrichAll "me" [⟨false, cuser⟩] [c5item0] [] = some ([c5item1], [])
  ∧ c5item1.displayName = some "You" :=
  ⟨by decide,
    (c5_amended "me" [⟨false, cuser⟩] [c5item0] [] ([c5item1], [])
        ⟨⟨false, cuser⟩, by decide, rfl⟩ (by decide)).1
      c5item1 (by decide) (by decide)⟩

/-- C6: a room whose `lastActivity` is strictly older than the 1200-hour
lookback cutoff never appears among the rooms selected for a message
fetch. -/
theorem c6_confirmed (now : Int) (body : List Room) (r : Room)
    (_hmem : r ∈ body) (hold : r.lastActivity < now - 1200 * hourMs) :
    r ∉ selectedRooms now body := by
  intro hin
  have hp := List.mem_takeWhile_imp hin
  simp only [isRecent, decide_eq_true_eq] at hp
  omega

/-- C6 witness: a concrete stale room gets no fetch. -/
theorem c6_witness : c6room ∉ selectedRooms 0 [c6room] :=
  c6_confirmed 0 [c6room] c6room (by decide) (by decide)

/-- C4 (corrected is needed): with a successful rooms fetch and an
identity fetch that returns an error response, the handler still assigns
`Response.Data` (here the empty feed, with the error code reset to 0),
because the identity response is never passed to the error check. -/
theorem c4_counterexample :
    (Resp.mk true cme : Resp UserInfo).isError = true
  ∧ (handler 0 ⟨false, []⟩ (fun _ => ⟨false, []⟩) ⟨true, cme⟩ (fun _ => ⟨false, cuser⟩)
        ⟨none, 7⟩)
      = ⟨some ⟨⟨0, []⟩, ⟨0, []⟩⟩, 0⟩ := by
  decide

/-- C4 (amended): if the rooms fetch or any per-room message fetch returns
an error response, the invocation aborts with the activity untouched —
`Response.Data` is never assigned; the identity fetch, however, is not
error-checked, so an identity error response does not abort. -/
theorem c4_amended (now : Int) (roomsResp : Resp (List Room))
    (msgsOf : String → Resp (List Message)) (meResp : Resp UserInfo)
    (userOf : String → Resp UserInfo) (act : Activity)
    (h : roomsResp.isError = true
      ∨ ∃ r ∈ selectedRooms now roomsResp.body, (msgsOf r.id).isError = true) :
    handler now roomsResp msgsOf meResp userOf act = act := by
  rcases h with h | ⟨r, hr, herr⟩
  · simp [handler, h]
  · by_cases hre : roomsResp.isError
    · simp [handler, hre]
    · have hc : collectFiltered now
          ((selectedRooms now roomsResp.body).map (fun r => msgsOf r.id)) = none :=
        collect_none now _ ⟨msgsOf r.id, List.mem_map_of_mem _ hr, herr⟩
      simp [handler, hre, hc]

/-- C4 witness: a rooms-fetch error response leaves the activity as it
was. -/
theorem c4_witness :
    handler 0 ⟨true, []⟩ (fun _ => ⟨false, []⟩) ⟨false, cme⟩ (fun _ => ⟨false, cuser⟩)
        ⟨none, 7⟩
      = ⟨none, 7⟩ :=
  c4_amended 0 ⟨true, []⟩ (fun _ => ⟨false, []⟩) ⟨false, cme⟩ (fun _ => ⟨false, cuser⟩)
    ⟨none, 7⟩ (Or.inl rfl)

/-- C7 (corrected is needed): the extracted mention name `a.c` does not
occur literally in the description `abc`, so the claimed literal
replacement would leave the description unchanged — but the styler, which
feeds the name to `new RegExp`, rewrites the whole description because `.`
matches any character. -/
theorem c7_counterexample :
    (matchMentions [c7item]).map (List.map (·.description))
      = some ["<span class=\x22blue\x22>@a.c</span>"]
  ∧ occursIn "a.c".data "abc".data = false
  ∧ literalReplaceAll "a.c" (styledSpan "a.c") "abc" = "abc" := by
  decide

/-- C7 (amended): for each item with HTML, each distinct extracted
mention name is processed once (a duplicate appended to the match list
changes nothing) and every occurrence of the name interpreted as a regular
expression — not as a literal string — is replaced with the styled
wrapper; on names with no regex metacharacter at all (none of
`. ( ) [ ] \x7b \x7d | ^ $ * + ? \`, the `plainChar` set), this coincides
with literal replacement; items without HTML are left unchanged.  Names
containing a metacharacter other than `.` make `new RegExp` throw or
behave as a regex engine beyond this model, and nothing is claimed for
them. -/
theorem c7_amended :
    (∀ (pat repl s : String), pat.data.all plainChar = true →
        regexReplaceAll pat repl s = literalReplaceAll pat repl s)
  ∧ (∀ (ms : List String) (m : String) (desc : String),
        afterLastGt m ∈ ms.map afterLastGt →
          applyMatches (ms ++ [m]) [] desc = applyMatches ms [] desc)
  ∧ (∀ it : Item, it.raw.html = none → styleItem it = some it) := by
  refine ⟨?_, ?_, ?_⟩
  · intro pat repl s h
    have hdot : '.' ∉ pat.data := by
      intro hm
      have := List.all_eq_true.1 h '.' hm
      simp [plainChar, regexMeta] at this
    exact congrArg String.mk (replaceAux_eq pat.data repl.data hdot s.data.length s.data)
  · intro ms m desc h
    exact applyMatches_dup ms m [] desc (Or.inr h)
  · intro it h
    simp [styleItem, h]

/-- C7 witness: on a metacharacter-free name the regex replacement is the
literal replacement, and a duplicated name is not reprocessed. -/
theorem c7_witness :
    regexReplaceAll "ab" "Z" "xabyab" = literalReplaceAll "ab" "Z" "xabyab"
  ∧ applyMatches ["<x>n", "<x>n"] [] "n plus n" = applyMatches ["<x>n"] [] "n plus n" :=
  ⟨c7_amended.1 "ab" "Z" "xabyab" (by decide),
    c7_amended.2.1 ["<x>n"] "<x>n" "n plus n" (by decide)⟩

/-- C9: per room at most 3 message items and at most 3 mention items are
constructed, and over any list of rooms the accumulated item lists stay
below 3 items per room. -/
theorem c9_confirmed (rooms : List Room) (meId : String) (msgs : List Message)
    (filtered : List (List Message)) :
    (messageLoop rooms msgs.length msgs 0).length ≤ 3
  ∧ (mentionLoop rooms meId msgs 0).1.length ≤ 3
  ∧ (processRooms rooms meId filtered).messages.items.length ≤ 3 * filtered.length
  ∧ (processRooms rooms meId filtered).mentions.items.length ≤ 3 * filtered.length := by
  have h1 := messageLoop_length_le rooms msgs.length msgs 0
  have h2 := mentionLoop_length_le rooms meId msgs 0
  have h3 := foldl_items_le rooms meId filtered ⟨⟨0, []⟩, ⟨0, []⟩⟩
  unfold processRooms
  refine ⟨by omega, by omega, ?_, ?_⟩
  · have := h3.1; simpa using this
  · have := h3.2; simpa using this

/-- C10: `messages.count` totals the recency-filtered messages of every
room (empty-text ones included) and can exceed the number of message
items, while `mentions.count` always equals the number of mention items. -/
theorem c10_confirmed (rooms : List Room) (meId : String)
    (filtered : List (List Message)) :
    (processRooms rooms meId filtered).messages.count = (filtered.map List.length).sum
  ∧ (processRooms rooms meId filtered).mentions.count
      = (processRooms rooms meId filtered).mentions.items.length
  ∧ (processRooms ([] : List Room) "me" [[c10msg]]).messages.items.length
      < (processRooms ([] : List Room) "me" [[c10msg]]).messages.count := by
  refine ⟨?_, ?_, by decide⟩
  · simpa using foldl_msg_count rooms meId filtered ⟨⟨0, []⟩, ⟨0, []⟩⟩
  · exact foldl_mention_count rooms meId filtered ⟨⟨0, []⟩, ⟨0, []⟩⟩ rfl

end Webex
